import Mathlib

/-!
Verification of the Terra ProgramOptions command-line parser
(`src/parser.cpp`, `include/terra/program_options/program_options.h`).

Strings are modelled as `List Char` (`Str`).  The parser's
`std::unordered_map<std::string, std::vector<std::string>>` result store is
modelled as an association list (`OptionMap`); only per-key contents are
observable through the accessors, so the representation order is immaterial.
Exceptions become `Except OptionsError`.
-/

namespace ProgramOptions

deriving instance DecidableEq for Except

/-- Strings, modelled character by character. -/
abbrev Str := List Char

/-- The `OptionsError` enum from `program_options.h`. -/
inductive OptionsError where
  | FlagConflict
  | EmptyIdentifierName
  | DuplicateIdentifier
  | DuplicateShortOption
  | DuplicateLongOption
  | InvalidShortOption
  | InvalidLongOption
  | MultipleInstances
  | MissingOptionArgument
  | OptionNotGiven
  | OptionValueError
deriving DecidableEq, Repr

/-- One program option descriptor: the `Option` struct of
`program_options.h` (named `Opt` here because `Option` is taken by Lean). -/
structure Opt where
  name : Str
  short_option : Str
  long_option : Str
  multiple_allowed : Bool
  parameter_expected : Bool
deriving DecidableEq, Repr

/-- The result store: option name to the ordered list of recorded values. -/
abbrev OptionMap := List (Str × List Str)

/-- Look up the value list recorded under a key. -/
def lookupMap : OptionMap → Str → Option (List Str)
  | [], _ => none
  | (k, vs) :: rest, key => if k = key then some vs else lookupMap rest key

/-- `option_map.find(key) != option_map.end()`. -/
def containsKey (m : OptionMap) (key : Str) : Bool :=
  (lookupMap m key).isSome

/-- `option_map[key].emplace_back(v)`: appends `v` to the list under `key`,
creating the entry (as the default-constructed empty vector) if absent. -/
def appendVal : OptionMap → Str → Str → OptionMap
  | [], key, v => [(key, [v])]
  | (k, vs) :: rest, key, v =>
      if k = key then (k, vs ++ [v]) :: rest
      else (k, vs) :: appendVal rest key v

/-- `std::toupper` in the C locale: uppercases ASCII a-z, identity elsewhere. -/
def toupper (c : Char) : Char :=
  if 'a' ≤ c ∧ c ≤ 'z' then Char.ofNat (c.toNat - 32) else c

/-- `Parser::Uppercase` (parser.cpp:1750): uppercase every character. -/
def Uppercase (s : Str) : Str := s.map toupper

/-- The `Parser` object's state: installed options, flag configuration and
the accumulated result map. -/
structure Parser where
  options : List Opt
  short_flags : List Str
  long_flags : List Str
  option_value_separator : Str
  case_insensitive : Bool
  option_map : OptionMap
deriving DecidableEq, Repr

/-- `Parser::FindStringStart` (parser.cpp:1705): byte-exact matching of
`pre` at the front of `s`, returning the remainder on success.  Matching
stops early when either string runs out; an empty `s` never matches (the
start and end iterators equate).  This comparison is always
case-sensitive, regardless of the `case_insensitive` toggle. -/
def FindStringStart (pre : Str) (s : Str) : Option Str :=
  match s with
  | [] => none
  | _ :: _ => go pre s
where
  /-- Walk the two strings together, mirroring the character loop. -/
  go : Str → Str → Option Str
  | [], rest => some rest
  | _ :: _, [] => none
  | c :: cs, a :: as2 => if c = a then go cs as2 else none

/-- `Parser::FindOptionStart` (parser.cpp:1645): try each flag string in
order; the first one found at the front of the argument wins. -/
def FindOptionStart : List Str → Str → Option Str
  | [], _ => none
  | f :: fs, s =>
      match FindStringStart f s with
      | some rest => some rest
      | none => FindOptionStart fs s

/-- The long-option-name matching loop of `Parser::ProcessLongOption`
(parser.cpp:1334-1352): match every character of `long_option` against the
argument span (case-insensitively when the toggle is set), returning the
unmatched remainder of the span when the whole name matched. -/
def matchLongName (ci : Bool) : Str → Str → Option Str
  | [], rest => some rest
  | _ :: _, [] => none
  | c :: cs, a :: as2 =>
      if c = a ∨ (ci ∧ toupper c = toupper a) then matchLongName ci cs as2
      else none

/-- `Parser::StoreOption` (parser.cpp:1571): record one occurrence of an
option, with an optional supplied parameter.  Returns whether the
parameter was consumed, together with the updated map. -/
def StoreOption (o : Opt) (parameter : Option Str) (m : OptionMap) :
    Except OptionsError (Bool × OptionMap) :=
  if containsKey m o.name = true ∧ o.multiple_allowed = false then
    .error .MultipleInstances
  else if o.parameter_expected = false then
    .ok (false, appendVal m o.name [])
  else
    match parameter with
    | none => .error .MissingOptionArgument
    | some p => .ok (true, appendVal m o.name p)

/-- The descriptor-scanning loop of `Parser::ProcessLongOption`
(parser.cpp:1325-1414), over the remainder `rest` of the argument after
the long flag.  `.ok none` means no descriptor matched. -/
def ProcessLongOptionLoop (st : Parser) (parameter : Option Str)
    (rest : Str) (m : OptionMap) :
    List Opt → Except OptionsError (Option (Bool × OptionMap))
  | [] => .ok none
  | o :: os =>
      if o.long_option = [] then ProcessLongOptionLoop st parameter rest m os
      else
        match matchLongName st.case_insensitive o.long_option rest with
        | none => ProcessLongOptionLoop st parameter rest m os
        | some after =>
            if after = [] then
              match StoreOption o parameter m with
              | .error e => .error e
              | .ok (pc, m') => .ok (some (pc, m'))
            else
              match FindStringStart st.option_value_separator after with
              | some value =>
                  if o.parameter_expected = false then
                    .error .MissingOptionArgument
                  else if value = [] then
                    .error .MissingOptionArgument
                  else
                    match StoreOption o (some value) m with
                    | .error e => .error e
                    | .ok (_, m') => .ok (some (false, m'))
              | none => ProcessLongOptionLoop st parameter rest m os

/-- `Parser::ProcessLongOption` (parser.cpp:1283).  Result: (argument was
processed as a long option, the following token was consumed, new map). -/
def ProcessLongOption (st : Parser) (argument : Str)
    (parameter : Option Str) (m : OptionMap) :
    Except OptionsError (Bool × Bool × OptionMap) :=
  if argument = [] then .ok (false, false, m)
  else
    match FindOptionStart st.long_flags argument with
    | none => .ok (false, false, m)
    | some [] => .ok (true, false, appendVal m [] argument)
    | some (c :: rest) =>
        match ProcessLongOptionLoop st parameter (c :: rest) m st.options with
        | .error e => .error e
        | .ok none => .error .InvalidLongOption
        | .ok (some (pc, m')) => .ok (true, pc, m')

/-- The first descriptor whose non-empty `short_option` matches the
single-character user option (parser.cpp:1501-1530). -/
def findShortOption : List Opt → Bool → Char → Option Opt
  | [], _, _ => none
  | o :: os, ci, c =>
      if o.short_option = [] then findShortOption os ci c
      else if o.short_option = [c] ∨
              (ci ∧ Uppercase o.short_option = Uppercase [c]) then some o
      else findShortOption os ci c

/-- The character-bundling loop of `Parser::ProcessShortOption`
(parser.cpp:1491-1539): each remaining character is one short option; only
the last character may consume the following token as its parameter, any
earlier character is stored with an absent parameter. -/
def shortOptionLoop (st : Parser) (parameter : Option Str) :
    Str → OptionMap → Bool → Except OptionsError (Bool × OptionMap)
  | [], m, consumed => .ok (consumed, m)
  | c :: cs, m, consumed =>
      match findShortOption st.options st.case_insensitive c with
      | none => .error .InvalidShortOption
      | some o =>
          if cs = [] then
            match StoreOption o parameter m with
            | .error e => .error e
            | .ok (pc, m') => .ok (pc, m')
          else
            match StoreOption o none m with
            | .error e => .error e
            | .ok (_, m') => shortOptionLoop st parameter cs m' consumed

/-- `Parser::ProcessShortOption` (parser.cpp:1458). -/
def ProcessShortOption (st : Parser) (argument : Str)
    (parameter : Option Str) (m : OptionMap) :
    Except OptionsError (Bool × Bool × OptionMap) :=
  if argument = [] then .ok (false, false, m)
  else
    match FindOptionStart st.short_flags argument with
    | none => .ok (false, false, m)
    | some [] => .ok (true, false, appendVal m [] argument)
    | some (c :: rest) =>
        match shortOptionLoop st parameter (c :: rest) m false with
        | .error e => .error e
        | .ok (pc, m') => .ok (true, pc, m')

/-- `Parser::ProcessArgument` (parser.cpp:1226): long options first, then
short options, otherwise the token is stored under the positional key `""`.
Returns whether the following token was consumed, with the new map. -/
def ProcessArgument (st : Parser) (argument : Str)
    (parameter : Option Str) (m : OptionMap) :
    Except OptionsError (Bool × OptionMap) :=
  if argument = [] then .ok (false, appendVal m [] argument)
  else
    match ProcessLongOption st argument parameter m with
    | .error e => .error e
    | .ok (true, pc, m') => .ok (pc, m')
    | .ok (false, _, _) =>
        match ProcessShortOption st argument parameter m with
        | .error e => .error e
        | .ok (true, pc, m') => .ok (pc, m')
        | .ok (false, _, _) => .ok (false, appendVal m [] argument)

/-- The argument loop of `Parser::ParseArguments` (parser.cpp:265-275):
each token is processed with the next token offered as candidate
parameter; a consumed candidate is skipped. -/
def parseLoop (st : Parser) : List Str → OptionMap → Except OptionsError OptionMap
  | [], m => .ok m
  | [a], m =>
      match ProcessArgument st a none m with
      | .error e => .error e
      | .ok (_, m') => .ok m'
  | a :: b :: rest, m =>
      match ProcessArgument st a (some b) m with
      | .error e => .error e
      | .ok (true, m') => parseLoop st rest m'
      | .ok (false, m') => parseLoop st (b :: rest) m'

/-- `Parser::ParseArguments` (parser.cpp:258): skip the command name in
position zero and process the remaining tokens, accumulating into the
parser's existing `option_map` (which is not cleared here). -/
def Parser.ParseArguments (p : Parser) (arguments : List Str) :
    Except OptionsError Parser :=
  if arguments.length ≤ 1 then .ok p
  else
    match parseLoop p (arguments.drop 1) p.option_map with
    | .error e => .error e
    | .ok m' => .ok { p with option_map := m' }

/-- `Parser::CheckOptionFlags` (parser.cpp:1104): no string may appear in
both the long-flag and short-flag sets. -/
def CheckOptionFlags (short_flags long_flags : List Str) :
    Except OptionsError Unit :=
  if long_flags.any (fun lf => short_flags.any (fun sf => lf = sf)) then
    .error .FlagConflict
  else .ok ()

/-- `Parser::CheckOptions` (parser.cpp:1136): validate the option
descriptors, tracking the names and forms seen so far. -/
def CheckOptions (options : List Opt) : Except OptionsError Unit :=
  go options [] [] []
where
  /-- One step of the validation loop, in the source's check order. -/
  go : List Opt → List Str → List Str → List Str → Except OptionsError Unit
  | [], _, _, _ => .ok ()
  | o :: os, ids, shorts, longs =>
      if o.name = [] then .error .EmptyIdentifierName
      else if o.name ∈ ids then .error .DuplicateIdentifier
      else if o.short_option ≠ [] ∧ o.short_option ∈ shorts then
        .error .DuplicateShortOption
      else if o.short_option ≠ [] ∧ o.short_option.length > 1 then
        .error .InvalidShortOption
      else if o.long_option ≠ [] ∧ o.long_option ∈ longs then
        .error .DuplicateLongOption
      else
        go os (o.name :: ids)
          (if o.short_option ≠ [] then o.short_option :: shorts else shorts)
          (if o.long_option ≠ [] then o.long_option :: longs else longs)

/-- `Parser::SetOptions` (parser.cpp:134): install a new specification and
flag configuration, clear the result map, then validate flags and
options. -/
def Parser.SetOptions (_p : Parser) (options : List Opt)
    (short_flags long_flags : List Str) (option_value_separator : Str)
    (case_insensitive : Bool) : Except OptionsError Parser :=
  let p' : Parser :=
    { options := options, short_flags := short_flags,
      long_flags := long_flags,
      option_value_separator := option_value_separator,
      case_insensitive := case_insensitive, option_map := [] }
  match CheckOptionFlags short_flags long_flags with
  | .error e => .error e
  | .ok _ =>
      match CheckOptions options with
      | .error e => .error e
      | .ok _ => .ok p'

/-- The options-taking constructor `Parser::Parser` (parser.cpp:84-96): it
only installs the members and starts with an empty result map; it calls
neither `CheckOptionFlags` nor `CheckOptions`. -/
def mkParser (options : List Opt) (short_flags long_flags : List Str)
    (option_value_separator : Str) (case_insensitive : Bool) : Parser :=
  { options := options, short_flags := short_flags,
    long_flags := long_flags,
    option_value_separator := option_value_separator,
    case_insensitive := case_insensitive, option_map := [] }

/-- `Parser::OptionGiven` (parser.cpp:295). -/
def Parser.OptionGiven (p : Parser) (option_name : Str) : Bool :=
  containsKey p.option_map option_name

/-- The count `Parser::GetOptionCount` computes on a result map:
the length of the recorded value list, `0` when the key is absent. -/
def countOf (m : OptionMap) (key : Str) : Nat :=
  match lookupMap m key with
  | none => 0
  | some vs => vs.length

/-- `Parser::GetOptionCount` (parser.cpp:322). -/
def Parser.GetOptionCount (p : Parser) (option_name : Str) : Nat :=
  countOf p.option_map option_name

/-- `Parser::FindOptionStrings` (parser.cpp:959): the recorded value list,
or an `OptionNotGiven` error. -/
def Parser.FindOptionStrings (p : Parser) (option_name : Str) :
    Except OptionsError (List Str) :=
  match lookupMap p.option_map option_name with
  | none => .error .OptionNotGiven
  | some vs => .ok vs

/-- `Parser::GetOptionString` (parser.cpp:360): `.front()` of the recorded
values (modelled by `head?`, since `front` on an empty vector is
undefined). -/
def Parser.GetOptionString (p : Parser) (option_name : Str) :
    Except OptionsError (Option Str) :=
  match p.FindOptionStrings option_name with
  | .error e => .error e
  | .ok vs => .ok vs.head?

/-- `Parser::GetOptionStrings` (parser.cpp:387). -/
def Parser.GetOptionStrings (p : Parser) (option_name : Str) :
    Except OptionsError (List Str) :=
  p.FindOptionStrings option_name

/-- Convenience: build a `Str` from a Lean string literal. -/
def s2l (s : String) : Str := s.toList

/-! ### Typed value access (the `GetOptionValues<unsigned>` instantiation) -/

/-- The two standard-library exception kinds the converters raise. -/
inductive ConvError where
  | invalid_argument
  | out_of_range
deriving DecidableEq, Repr

/-- `std::isspace` in the C locale. -/
def isSpaceC (c : Char) : Bool :=
  c = ' ' ∨ c = '\t' ∨ c = '\n' ∨ c = '\x0b' ∨ c = '\x0c' ∨ c = '\r'

/-- ASCII decimal digit test. -/
def isDigitC (c : Char) : Bool := '0' ≤ c ∧ c ≤ '9'

/-- Numeric value of a run of decimal digits. -/
def digitsToNat (ds : Str) : Nat :=
  ds.foldl (fun acc c => acc * 10 + (c.toNat - '0'.toNat)) 0

/-- `ULONG_MAX` on the 64-bit targets this library runs on. -/
def ulongMax : Nat := 2 ^ 64 - 1

/-- Model of `std::stoul` (base 10): skip leading whitespace, an optional
sign, then require at least one decimal digit; trailing text is ignored.
`invalid_argument` when no digits are found, `out_of_range` when the
digit value exceeds `ULONG_MAX`; a `-` sign negates in unsigned
arithmetic.  (`std::stoul` is the C++ standard library, modelled here as
the converters in parser.cpp use it.) -/
def stoul (s : Str) : Except ConvError Nat :=
  let s1 := s.dropWhile isSpaceC
  let signAndRest : Bool × Str :=
    match s1 with
    | '-' :: r => (true, r)
    | '+' :: r => (false, r)
    | r => (false, r)
  let ds := signAndRest.2.takeWhile isDigitC
  if ds = [] then .error .invalid_argument
  else
    let v := digitsToNat ds
    if v > ulongMax then .error .out_of_range
    else .ok (if signAndRest.1 then (2 ^ 64 - v % 2 ^ 64) % 2 ^ 64 else v)

/-- The converter lambda of `GetOptionValues<unsigned>` (parser.cpp:606):
`std::stoul`, an `[min, max]` range check on the `unsigned long` result,
then `static_cast<unsigned>` (truncation modulo `2^32`). -/
def converterUnsigned (mi ma : Nat) (value : Str) : Except ConvError Nat :=
  match stoul value with
  | .error e => .error e
  | .ok i =>
      if i < mi ∨ i > ma then .error .out_of_range
      else .ok (i % 2 ^ 32)

/-- The per-value body of the generic `Parser::GetOptionValues`
(parser.cpp:1029-1051): convert each recorded string, re-check the
converted value against `[min, max]`, and collect; every conversion or
range failure is reported as `OptionValueError`. -/
def convertValues (mi ma : Nat) : List Str → Except OptionsError (List Nat)
  | [] => .ok []
  | s :: rest =>
      match converterUnsigned mi ma s with
      | .error _ => .error .OptionValueError
      | .ok v =>
          if v < mi ∨ v > ma then .error .OptionValueError
          else
            match convertValues mi ma rest with
            | .error e => .error e
            | .ok vs => .ok (v :: vs)

/-- `Parser::GetOptionValues<unsigned>` (parser.cpp:599 together with the
generic routine at parser.cpp:1007): look up the recorded strings and
convert each one under the inclusive bounds. -/
def Parser.GetOptionValuesUnsigned (p : Parser) (option_name : Str)
    (mi ma : Nat) : Except OptionsError (List Nat) :=
  match p.FindOptionStrings option_name with
  | .error e => .error e
  | .ok strs => convertValues mi ma strs

/-- `Parser::GetOptionValue<unsigned>` (program_options.h:291-302): fetch
all converted values, then take `.front()` (modelled by `head?`). -/
def Parser.GetOptionValueUnsigned (p : Parser) (option_name : Str)
    (mi ma : Nat) : Except OptionsError (Option Nat) :=
  match p.GetOptionValuesUnsigned option_name mi ma with
  | .error e => .error e
  | .ok vs => .ok vs.head?

/-! ### Result-store invariants: the map only ever grows by `appendVal` -/

/-- Every entry of the result map carries a non-empty value list. -/
def MapWF (m : OptionMap) : Prop := ∀ e ∈ m, e.2 ≠ []

/-- `m'` is reachable from `m` by a (possibly empty) sequence of
`appendVal` steps — the only way any parsing operation writes the map. -/
inductive Builds : OptionMap → OptionMap → Prop where
  | refl (m : OptionMap) : Builds m m
  | step (m : OptionMap) (key v : Str) (m' : OptionMap)
      (h : Builds (appendVal m key v) m') : Builds m m'

theorem Builds.single (m : OptionMap) (key v : Str) :
    Builds m (appendVal m key v) :=
  .step m key v _ (.refl _)

theorem Builds.trans' {m₁ m₂ m₃ : OptionMap}
    (h1 : Builds m₁ m₂) (h2 : Builds m₂ m₃) : Builds m₁ m₃ := by
  induction h1 with
  | refl => exact h2
  | step m key v m' _ ih => exact .step m key v _ (ih h2)

theorem appendVal_wf {m : OptionMap} (key v : Str) (h : MapWF m) :
    MapWF (appendVal m key v) := by
  induction m with
  | nil =>
      intro e he
      simp only [appendVal, List.mem_singleton] at he
      subst he; simp
  | cons kv rest ih =>
      obtain ⟨k, vs⟩ := kv
      intro e he
      simp only [appendVal] at he
      by_cases hk : k = key
      · simp only [if_pos hk, List.mem_cons] at he
        rcases he with he | he
        · subst he; simp
        · exact h e (List.mem_cons_of_mem _ he)
      · simp only [if_neg hk, List.mem_cons] at he
        rcases he with he | he
        · subst he; exact h (k, vs) (List.mem_cons_self _ _)
        · exact ih (fun e' he' => h e' (List.mem_cons_of_mem _ he')) e he

theorem countOf_le_appendVal (m : OptionMap) (key v k' : Str) :
    countOf m k' ≤ countOf (appendVal m key v) k' := by
  induction m with
  | nil => simp [countOf, lookupMap, appendVal]
  | cons kv rest ih =>
      obtain ⟨k, vs⟩ := kv
      by_cases hk : k = key
      · subst hk
        by_cases hk' : k = k'
        · subst hk'
          simp [countOf, lookupMap, appendVal]
        · simp [countOf, lookupMap, appendVal, hk']
      · by_cases hk' : k = k'
        · subst hk'
          simp [countOf, lookupMap, appendVal, hk]
        · simpa [countOf, lookupMap, appendVal, hk, hk'] using ih

theorem Builds.wf {m m' : OptionMap} (h : Builds m m') (hwf : MapWF m) :
    MapWF m' := by
  induction h with
  | refl => exact hwf
  | step m key v mm _ ih => exact ih (appendVal_wf key v hwf)

theorem Builds.count_le {m m' : OptionMap} (h : Builds m m') (k : Str) :
    countOf m k ≤ countOf m' k := by
  induction h with
  | refl => exact le_rfl
  | step m key v mm _ ih => exact (countOf_le_appendVal m key v k).trans ih

theorem lookupMap_mem {m : OptionMap} {key : Str} {l : List Str}
    (h : lookupMap m key = some l) : (key, l) ∈ m := by
  induction m with
  | nil => simp [lookupMap] at h
  | cons kv rest ih =>
      obtain ⟨k, vs⟩ := kv
      by_cases hk : k = key
      · simp only [lookupMap, if_pos hk, Option.some.injEq] at h
        subst hk; subst h; exact List.mem_cons_self _ _
      · simp only [lookupMap, if_neg hk] at h
        exact List.mem_cons_of_mem _ (ih h)

theorem StoreOption_builds {o : Opt} {parameter : Option Str} {m : OptionMap}
    {b : Bool} {m' : OptionMap}
    (h : StoreOption o parameter m = .ok (b, m')) : Builds m m' := by
  unfold StoreOption at h
  split at h
  · simp at h
  · split at h
    · simp only [Except.ok.injEq, Prod.mk.injEq] at h
      obtain ⟨-, h2⟩ := h
      subst h2
      exact Builds.single _ _ _
    · cases parameter with
      | none => simp at h
      | some p =>
          simp only [Except.ok.injEq, Prod.mk.injEq] at h
          obtain ⟨-, h2⟩ := h
          subst h2
          exact Builds.single _ _ _

theorem ProcessLongOptionLoop_builds (st : Parser) (parameter : Option Str)
    (rest : Str) {m : OptionMap} :
    ∀ (opts : List Opt) {pc : Bool} {m' : OptionMap},
      ProcessLongOptionLoop st parameter rest m opts = .ok (some (pc, m')) →
      Builds m m' := by
  intro opts
  induction opts with
  | nil => intro pc m' h; simp [ProcessLongOptionLoop] at h
  | cons o os ih =>
      intro pc m' h
      unfold ProcessLongOptionLoop at h
      by_cases hlo : o.long_option = []
      · rw [if_pos hlo] at h; exact ih h
      · rw [if_neg hlo] at h
        cases hm : matchLongName st.case_insensitive o.long_option rest with
        | none => rw [hm] at h; exact ih h
        | some after =>
            rw [hm] at h
            dsimp only at h
            by_cases ha : after = []
            · rw [if_pos ha] at h
              cases hs : StoreOption o parameter m with
              | error e => rw [hs] at h; simp at h
              | ok pr =>
                  obtain ⟨pc0, m0⟩ := pr
                  rw [hs] at h
                  simp only [Except.ok.injEq, Option.some.injEq,
                    Prod.mk.injEq] at h
                  obtain ⟨-, h2⟩ := h
                  subst h2
                  exact StoreOption_builds hs
            · rw [if_neg ha] at h
              cases hf : FindStringStart st.option_value_separator after with
              | none => rw [hf] at h; exact ih h
              | some value =>
                  rw [hf] at h
                  dsimp only at h
                  by_cases hp : o.parameter_expected = false
                  · rw [if_pos hp] at h; simp at h
                  · rw [if_neg hp] at h
                    by_cases hv : value = []
                    · rw [if_pos hv] at h; simp at h
                    · rw [if_neg hv] at h
                      cases hs : StoreOption o (some value) m with
                      | error e => rw [hs] at h; simp at h
                      | ok pr =>
                          obtain ⟨b0, m0⟩ := pr
                          rw [hs] at h
                          simp only [Except.ok.injEq, Option.some.injEq,
                            Prod.mk.injEq] at h
                          obtain ⟨-, h2⟩ := h
                          subst h2
                          exact StoreOption_builds hs

theorem ProcessLongOption_builds {st : Parser} {argument : Str}
    {parameter : Option Str} {m : OptionMap} {a b : Bool} {m' : OptionMap}
    (h : ProcessLongOption st argument parameter m = .ok (a, b, m')) :
    Builds m m' := by
  unfold ProcessLongOption at h
  by_cases he : argument = []
  · rw [if_pos he] at h
    simp only [Except.ok.injEq, Prod.mk.injEq] at h
    obtain ⟨-, -, h3⟩ := h
    subst h3
    exact .refl _
  · rw [if_neg he] at h
    cases hf : FindOptionStart st.long_flags argument with
    | none =>
        rw [hf] at h
        simp only [Except.ok.injEq, Prod.mk.injEq] at h
        obtain ⟨-, -, h3⟩ := h
        subst h3
        exact .refl _
    | some rest =>
        rw [hf] at h
        cases rest with
        | nil =>
            dsimp only at h
            simp only [Except.ok.injEq, Prod.mk.injEq] at h
            obtain ⟨-, -, h3⟩ := h
            subst h3
            exact Builds.single _ _ _
        | cons c cs =>
            dsimp only at h
            cases hl : ProcessLongOptionLoop st parameter (c :: cs) m
                st.options with
            | error e => rw [hl] at h; simp at h
            | ok r =>
                cases r with
                | none => rw [hl] at h; simp at h
                | some pr =>
                    obtain ⟨pc, m0⟩ := pr
                    rw [hl] at h
                    simp only [Except.ok.injEq, Prod.mk.injEq] at h
                    obtain ⟨-, -, h3⟩ := h
                    subst h3
                    exact ProcessLongOptionLoop_builds st parameter (c :: cs)
                      st.options hl

theorem shortOptionLoop_builds (st : Parser) (parameter : Option Str) :
    ∀ (cs : Str) (m : OptionMap) (consumed : Bool) {pc : Bool}
      {m' : OptionMap},
      shortOptionLoop st parameter cs m consumed = .ok (pc, m') →
      Builds m m' := by
  intro cs
  induction cs with
  | nil =>
      intro m consumed pc m' h
      simp only [shortOptionLoop, Except.ok.injEq, Prod.mk.injEq] at h
      obtain ⟨-, h2⟩ := h
      subst h2
      exact .refl _
  | cons c cs ih =>
      intro m consumed pc m' h
      unfold shortOptionLoop at h
      cases hfind : findShortOption st.options st.case_insensitive c with
      | none => rw [hfind] at h; simp at h
      | some o =>
          rw [hfind] at h
          dsimp only at h
          by_cases hcs : cs = []
          · rw [if_pos hcs] at h
            cases hs : StoreOption o parameter m with
            | error e => rw [hs] at h; simp at h
            | ok pr =>
                obtain ⟨b0, m0⟩ := pr
                rw [hs] at h
                simp only [Except.ok.injEq, Prod.mk.injEq] at h
                obtain ⟨-, h2⟩ := h
                subst h2
                exact StoreOption_builds hs
          · rw [if_neg hcs] at h
            cases hs : StoreOption o none m with
            | error e => rw [hs] at h; simp at h
            | ok pr =>
                obtain ⟨b0, m0⟩ := pr
                rw [hs] at h
                exact (StoreOption_builds hs).trans' (ih m0 consumed h)

theorem ProcessShortOption_builds {st : Parser} {argument : Str}
    {parameter : Option Str} {m : OptionMap} {a b : Bool} {m' : OptionMap}
    (h : ProcessShortOption st argument parameter m = .ok (a, b, m')) :
    Builds m m' := by
  unfold ProcessShortOption at h
  by_cases he : argument = []
  · rw [if_pos he] at h
    simp only [Except.ok.injEq, Prod.mk.injEq] at h
    obtain ⟨-, -, h3⟩ := h
    subst h3
    exact .refl _
  · rw [if_neg he] at h
    cases hf : FindOptionStart st.short_flags argument with
    | none =>
        rw [hf] at h
        simp only [Except.ok.injEq, Prod.mk.injEq] at h
        obtain ⟨-, -, h3⟩ := h
        subst h3
        exact .refl _
    | some rest =>
        rw [hf] at h
        cases rest with
        | nil =>
            dsimp only at h
            simp only [Except.ok.injEq, Prod.mk.injEq] at h
            obtain ⟨-, -, h3⟩ := h
            subst h3
            exact Builds.single _ _ _
        | cons c cs =>
            dsimp only at h
            cases hl : shortOptionLoop st parameter (c :: cs) m false with
            | error e => rw [hl] at h; simp at h
            | ok pr =>
                obtain ⟨pc, m0⟩ := pr
                rw [hl] at h
                simp only [Except.ok.injEq, Prod.mk.injEq] at h
                obtain ⟨-, -, h3⟩ := h
                subst h3
                exact shortOptionLoop_builds st parameter (c :: cs) m false hl

theorem ProcessArgument_builds {st : Parser} {argument : Str}
    {parameter : Option Str} {m : OptionMap} {c : Bool} {m' : OptionMap}
    (h : ProcessArgument st argument parameter m = .ok (c, m')) :
    Builds m m' := by
  unfold ProcessArgument at h
  by_cases he : argument = []
  · rw [if_pos he] at h
    simp only [Except.ok.injEq, Prod.mk.injEq] at h
    obtain ⟨-, h2⟩ := h
    subst h2
    exact Builds.single _ _ _
  · rw [if_neg he] at h
    cases hl : ProcessLongOption st argument parameter m with
    | error e => rw [hl] at h; simp at h
    | ok tr =>
        obtain ⟨matched, pc, m0⟩ := tr
        rw [hl] at h
        cases matched with
        | true =>
            simp only [Except.ok.injEq, Prod.mk.injEq] at h
            obtain ⟨-, h2⟩ := h
            subst h2
            exact ProcessLongOption_builds hl
        | false =>
            cases hs : ProcessShortOption st argument parameter m with
            | error e => rw [hs] at h; simp at h
            | ok tr2 =>
                obtain ⟨matched2, pc2, m1⟩ := tr2
                rw [hs] at h
                cases matched2 with
                | true =>
                    simp only [Except.ok.injEq, Prod.mk.injEq] at h
                    obtain ⟨-, h2⟩ := h
                    subst h2
                    exact ProcessShortOption_builds hs
                | false =>
                    simp only [Except.ok.injEq, Prod.mk.injEq] at h
                    obtain ⟨-, h2⟩ := h
                    subst h2
                    exact Builds.single _ _ _

theorem parseLoop_builds (st : Parser) :
    ∀ (n : Nat) (args : List Str), args.length ≤ n →
      ∀ {m m' : OptionMap}, parseLoop st args m = .ok m' → Builds m m' := by
  intro n
  induction n with
  | zero =>
      intro args hlen m m' h
      have : args = [] := List.length_eq_zero.mp (Nat.le_zero.mp hlen)
      subst this
      simp only [parseLoop, Except.ok.injEq] at h
      subst h
      exact .refl _
  | succ n ih =>
      intro args hlen m m' h
      match args with
      | [] =>
          simp only [parseLoop, Except.ok.injEq] at h
          subst h
          exact .refl _
      | [a] =>
          unfold parseLoop at h
          cases hp : ProcessArgument st a none m with
          | error e => rw [hp] at h; simp at h
          | ok pr =>
              obtain ⟨c, m0⟩ := pr
              rw [hp] at h
              simp only [Except.ok.injEq] at h
              subst h
              exact ProcessArgument_builds hp
      | a :: b :: rest =>
          unfold parseLoop at h
          cases hp : ProcessArgument st a (some b) m with
          | error e => rw [hp] at h; simp at h
          | ok pr =>
              obtain ⟨c, m0⟩ := pr
              rw [hp] at h
              cases c with
              | true =>
                  have hlen' : rest.length ≤ n := by
                    simp only [List.length_cons] at hlen
                    omega
                  exact (ProcessArgument_builds hp).trans'
                    (ih rest hlen' h)
              | false =>
                  have hlen' : (b :: rest).length ≤ n := by
                    simp only [List.length_cons] at hlen ⊢
                    omega
                  exact (ProcessArgument_builds hp).trans'
                    (ih (b :: rest) hlen' h)

theorem ParseArguments_builds {p p' : Parser} {args : List Str}
    (h : p.ParseArguments args = .ok p') :
    Builds p.option_map p'.option_map := by
  unfold Parser.ParseArguments at h
  by_cases hlen : args.length ≤ 1
  · rw [if_pos hlen] at h
    simp only [Except.ok.injEq] at h
    subst h
    exact .refl _
  · rw [if_neg hlen] at h
    cases hp : parseLoop p (args.drop 1) p.option_map with
    | error e => rw [hp] at h; simp at h
    | ok m0 =>
        rw [hp] at h
        simp only [Except.ok.injEq] at h
        subst h
        exact parseLoop_builds p (args.drop 1).length (args.drop 1) le_rfl hp

theorem convertValues_bounds {mi ma : Nat} :
    ∀ {strs : List Str} {vs : List Nat},
      convertValues mi ma strs = .ok vs → ∀ v ∈ vs, mi ≤ v ∧ v ≤ ma := by
  intro strs
  induction strs with
  | nil =>
      intro vs h v hv
      simp only [convertValues, Except.ok.injEq] at h
      subst h
      simp at hv
  | cons s rest ih =>
      intro vs h v hv
      unfold convertValues at h
      cases hc : converterUnsigned mi ma s with
      | error e => rw [hc] at h; simp at h
      | ok v0 =>
          rw [hc] at h
          dsimp only at h
          by_cases hr : v0 < mi ∨ v0 > ma
          · rw [if_pos hr] at h; simp at h
          · rw [if_neg hr] at h
            cases ht : convertValues mi ma rest with
            | error e => rw [ht] at h; simp at h
            | ok vs0 =>
                rw [ht] at h
                simp only [Except.ok.injEq] at h
                subst h
                rcases List.mem_cons.mp hv with hv | hv
                · subst hv; push_neg at hr; omega
                · exact ih ht v hv

/-! ### Fixtures: the example specification of the spec and test suite -/

/-- The four-descriptor example specification
(all/a, pattern/p multi+value, color/c value, size/s=min-size value). -/
def specExample : List Opt :=
  [⟨s2l "all", s2l "a", s2l "all", false, false⟩,
   ⟨s2l "pattern", s2l "p", s2l "pattern", true, true⟩,
   ⟨s2l "color", s2l "c", s2l "color", false, true⟩,
   ⟨s2l "size", s2l "s", s2l "min-size", false, true⟩]

/-- A parser over `specExample` with the default flag configuration:
short flags `-`, long flags `--`, separator `=`, case-sensitive. -/
def parserExample : Parser :=
  mkParser specExample [s2l "-"] [s2l "--"] (s2l "=") false

/-- The token sequence of the end-to-end example. -/
def tokensExample : List Str :=
  [s2l "prog", s2l "-a", s2l "-p", s2l "foo", s2l "file1", s2l "-p",
   s2l "bar", s2l "--color", s2l "red", s2l "-s", s2l "20", s2l "file2",
   s2l "file3"]

/-- The parser state the end-to-end example must produce. -/
def c1Expected : Parser :=
  { parserExample with option_map :=
      [(s2l "all", [[]]),
       (s2l "pattern", [s2l "foo", s2l "bar"]),
       ([], [s2l "file1", s2l "file2", s2l "file3"]),
       (s2l "color", [s2l "red"]),
       (s2l "size", [s2l "20"])] }

/-! ### Claim C1 -/

/-- Claim C1: parsing the example token sequence against the example
specification with default flags succeeds and produces exactly
all:[""], pattern:["foo","bar"], color:["red"], size:["20"] and
"":["file1","file2","file3"], in that value order, and no other keys. -/
theorem c1_example_parse :
    parserExample.ParseArguments tokensExample = .ok c1Expected ∧
    c1Expected.GetOptionStrings (s2l "all") = .ok [[]] ∧
    c1Expected.GetOptionStrings (s2l "pattern") = .ok [s2l "foo", s2l "bar"] ∧
    c1Expected.GetOptionStrings (s2l "color") = .ok [s2l "red"] ∧
    c1Expected.GetOptionStrings (s2l "size") = .ok [s2l "20"] ∧
    c1Expected.GetOptionStrings [] =
      .ok [s2l "file1", s2l "file2", s2l "file3"] ∧
    c1Expected.option_map.length = 5 := by
  decide

/-! ### Claim C2 -/

/-- The parser state after parsing `["prog","file1"]` once. -/
def c2P1 : Parser := { parserExample with option_map := [([], [s2l "file1"])] }

/-- The parser state after parsing `["prog","file1"]` a second time. -/
def c2P2 : Parser :=
  { parserExample with option_map := [([], [s2l "file1", s2l "file1"])] }

/-- Claim C2 counterexample: a second call to `ParseArguments` on the same
parser does not clear the previous results — the positional key holds
`["file1","file1"]` (count 2) after the re-parse, where the claim demands
the results of the two invocations never be merged (count 1). -/
theorem c2_counterexample :
    parserExample.ParseArguments [s2l "prog", s2l "file1"] = .ok c2P1 ∧
    c2P1.ParseArguments [s2l "prog", s2l "file1"] = .ok c2P2 ∧
    c2P1.GetOptionCount [] = 1 ∧
    c2P2.GetOptionCount [] = 2 := by
  decide

/-- Claim C2 (amended): installing a new specification via `SetOptions`
always resets the result map to empty, but a re-parse does not clear —
`ParseArguments` only appends, so every per-key count from before the
call is preserved (results of successive parse invocations merge). -/
theorem c2_install_resets_reparse_appends :
    (∀ (p p' : Parser) (opts : List Opt) (sf lf : List Str) (sep : Str)
       (ci : Bool), p.SetOptions opts sf lf sep ci = .ok p' →
         p'.option_map = []) ∧
    (∀ (p p' : Parser) (args : List Str), p.ParseArguments args = .ok p' →
       ∀ key, p.GetOptionCount key ≤ p'.GetOptionCount key) := by
  constructor
  · intro p p' opts sf lf sep ci h
    simp only [Parser.SetOptions] at h
    cases h1 : CheckOptionFlags sf lf with
    | error e => rw [h1] at h; simp at h
    | ok u =>
        rw [h1] at h
        dsimp only at h
        cases h2 : CheckOptions opts with
        | error e => rw [h2] at h; simp at h
        | ok u2 =>
            rw [h2] at h
            simp only [Except.ok.injEq] at h
            subst h
            rfl
  · intro p p' args h key
    exact (ParseArguments_builds h).count_le key

/-- Witness for the amended C2 theorem at concrete inputs. -/
theorem c2_witness :
    parserExample.option_map = [] ∧
    parserExample.GetOptionCount [] ≤ c2P1.GetOptionCount [] :=
  ⟨c2_install_resets_reparse_appends.1 (mkParser [] [] [] [] false)
      parserExample specExample [s2l "-"] [s2l "--"] (s2l "=") false
      (by decide),
   c2_install_resets_reparse_appends.2 parserExample c2P1
      [s2l "prog", s2l "file1"] (by decide) []⟩

/-! ### Claim C3 -/

/-- An invalid specification: the descriptor's name is empty. -/
def c3BadOptions : List Opt := [⟨[], s2l "a", s2l "all", false, false⟩]

/-- Claim C3 evidence: the options-taking constructor (parser.cpp:84-96)
installs an invalid specification without failing — it performs no
validation — while `SetOptions` (and `CheckOptions`) rejects the very
same specification with `EmptyIdentifierName`.  The header
(program_options.h:110-113) documents that the constructor throws
`SpecificationException` on invalid contents, so the constructor
contradicts the library's own documentation. -/
theorem c3_constructor_skips_validation :
    (mkParser c3BadOptions [s2l "-"] [s2l "--"] (s2l "=") false).options =
      c3BadOptions ∧
    (mkParser c3BadOptions [s2l "-"] [s2l "--"] (s2l "=") false).option_map =
      [] ∧
    CheckOptions c3BadOptions = .error .EmptyIdentifierName ∧
    (mkParser [] [] [] [] false).SetOptions c3BadOptions [s2l "-"]
      [s2l "--"] (s2l "=") false = .error .EmptyIdentifierName := by
  decide

/-! ### Claim C4 -/

/-- Spec with single-occurrence value-taking `pattern/p` and flag `all/a`. -/
def c4Parser : Parser :=
  mkParser
    [⟨s2l "pattern", s2l "p", s2l "pattern", false, true⟩,
     ⟨s2l "all", s2l "a", s2l "all", false, false⟩]
    [s2l "-"] [s2l "--"] (s2l "=") false

/-- Claim C4 counterexample: in `prog -p v -pa x` the mid-bundle `p` of
`-pa` expects a value and is handed to the store step with an absent
parameter, but because `pattern` is already recorded and multiple
instances are disallowed, the store step fails with `MultipleInstances`,
not with the missing-argument error the claim asserts. -/
theorem c4_counterexample :
    c4Parser.ParseArguments
        [s2l "prog", s2l "-p", s2l "v", s2l "-pa", s2l "x"] =
      .error .MultipleInstances ∧
    c4Parser.ParseArguments
        [s2l "prog", s2l "-p", s2l "v", s2l "-pa", s2l "x"] ≠
      .error .MissingOptionArgument := by
  decide

/-- Claim C4 (amended): a value-expecting character at a non-last bundle
position is handed to `StoreOption` with an absent parameter — matching
itself raises nothing, even when a token follows the bundle — and the
store step then fails: with `MissingOptionArgument` unless the option is
already recorded with multiple occurrences disallowed, in which case the
store step's multiple-instances check fires first. -/
theorem c4_mid_bundle_store_error (st : Parser) (parameter : Option Str)
    (c : Char) (cs : Str) (m : OptionMap) (consumed : Bool) (o : Opt)
    (hcs : cs ≠ [])
    (hfind : findShortOption st.options st.case_insensitive c = some o)
    (hval : o.parameter_expected = true) :
    shortOptionLoop st parameter (c :: cs) m consumed =
      .error (if containsKey m o.name = true ∧ o.multiple_allowed = false
              then .MultipleInstances else .MissingOptionArgument) := by
  have hs : StoreOption o none m =
      .error (if containsKey m o.name = true ∧ o.multiple_allowed = false
              then OptionsError.MultipleInstances
              else OptionsError.MissingOptionArgument) := by
    unfold StoreOption
    by_cases hmul : containsKey m o.name = true ∧ o.multiple_allowed = false
    · simp only [if_pos hmul]
    · simp only [if_neg hmul]
      have hpe : ¬ o.parameter_expected = false := by simp [hval]
      simp only [if_neg hpe]
  unfold shortOptionLoop
  rw [hfind]
  dsimp only
  rw [if_neg hcs, hs]

/-- Witness for the amended C4 theorem: fresh map, bundle `pa`, a token
follows — the result is the missing-argument error. -/
theorem c4_witness :
    shortOptionLoop c4Parser (some (s2l "x")) (s2l "pa") [] false =
      .error .MissingOptionArgument :=
  (c4_mid_bundle_store_error c4Parser (some (s2l "x")) 'p' (s2l "a") []
      false ⟨s2l "pattern", s2l "p", s2l "pattern", false, true⟩
      (by decide) (by decide) (by decide)).trans (by decide)

/-! ### Claim C5 -/

/-- Claim C5: a long token `--color=` followed by any non-empty value text
records that text as the option's value without consuming the following
token (which lands under the positional key); `--color=` with empty value
text raises an error, and a separator value on a descriptor that expects
no value (`--all=x`) raises an error. -/
theorem c5_separator_value (v : Str) (hv : v ≠ []) :
    parserExample.ParseArguments
        [s2l "prog", s2l "--color=" ++ v, s2l "next"] =
      .ok { parserExample with
              option_map := [(s2l "color", [v]), ([], [s2l "next"])] } ∧
    parserExample.ParseArguments [s2l "prog", s2l "--color="] =
      .error .MissingOptionArgument ∧
    parserExample.ParseArguments [s2l "prog", s2l "--all=x"] =
      .error .MissingOptionArgument := by
  refine ⟨?_, by decide, by decide⟩
  cases v with
  | nil => exact absurd rfl hv
  | cons c cs => rfl

/-- Witness for C5 at the concrete value `red`. -/
theorem c5_witness :
    parserExample.ParseArguments
        [s2l "prog", s2l "--color=" ++ s2l "red", s2l "next"] =
      .ok { parserExample with
              option_map := [(s2l "color", [s2l "red"]), ([], [s2l "next"])] } :=
  (c5_separator_value (s2l "red") (by decide)).1

/-! ### Claim C6 -/

/-- Claim C6 (amended): a token on which the first matching flag prefix
consumes the whole token (in particular a bare `--` or `-` under the
default flag sets) is stored verbatim under the positional key with no
error and without consuming the following token; this is guaranteed when
the flag-scan returns an empty remainder, not for every token equal to
some member of the flag set. -/
theorem c6_bare_flag_positional (st : Parser) (t : Str)
    (parameter : Option Str) (m : OptionMap)
    (h : FindOptionStart st.long_flags t = some [] ∨
         (FindOptionStart st.long_flags t = none ∧
          FindOptionStart st.short_flags t = some [])) :
    ProcessArgument st t parameter m = .ok (false, appendVal m [] t) := by
  have hnil : ∀ fs : List Str, FindOptionStart fs [] = none := by
    intro fs
    induction fs with
    | nil => rfl
    | cons f fs ih => simp [FindOptionStart, FindStringStart, ih]
  have hne : t ≠ [] := by
    intro he
    subst he
    rcases h with h1 | ⟨h1, h2⟩
    · rw [hnil] at h1; cases h1
    · rw [hnil] at h2; cases h2
  unfold ProcessArgument
  rw [if_neg hne]
  rcases h with h1 | ⟨h1, h2⟩
  · have hl : ProcessLongOption st t parameter m =
        .ok (true, false, appendVal m [] t) := by
      unfold ProcessLongOption
      rw [if_neg hne, h1]
    rw [hl]
  · have hl : ProcessLongOption st t parameter m = .ok (false, false, m) := by
      unfold ProcessLongOption
      rw [if_neg hne, h1]
    have hs : ProcessShortOption st t parameter m =
        .ok (true, false, appendVal m [] t) := by
      unfold ProcessShortOption
      rw [if_neg hne, h2]
    rw [hl]
    dsimp only
    rw [hs]

/-- A flag configuration in which the long-flag set lists `-` before `--`
(no string is in both sets, so installation succeeds). -/
def c6Parser : Parser :=
  mkParser [⟨s2l "all", s2l "a", s2l "all", false, false⟩]
    [s2l "/"] [s2l "-", s2l "--"] (s2l "=") false

/-- Claim C6 counterexample: under an installable configuration whose
long-flag set is `["-","--"]`, the token `--` consists of exactly the
long-flag prefix `--` with nothing following, yet parsing raises
`InvalidLongOption` instead of storing it under the positional key: the
flag scan matches the earlier prefix `-` and treats the remaining `-` as
an option name. -/
theorem c6_counterexample :
    (mkParser [] [] [] [] false).SetOptions
        [⟨s2l "all", s2l "a", s2l "all", false, false⟩]
        [s2l "/"] [s2l "-", s2l "--"] (s2l "=") false = .ok c6Parser ∧
    (s2l "--") ∈ c6Parser.long_flags ∧
    c6Parser.ParseArguments [s2l "prog", s2l "--"] =
      .error .InvalidLongOption := by
  decide

/-- Witness for the amended C6 theorem: bare `--` under default flags. -/
theorem c6_witness :
    ProcessArgument parserExample (s2l "--") none [] =
      .ok (false, [([], [s2l "--"])]) :=
  c6_bare_flag_positional parserExample (s2l "--") none []
    (Or.inl (by decide))

/-! ### Claim C7 -/

/-- A parser whose `size` option recorded the single value `"200"`. -/
def c7Parser : Parser :=
  { parserExample with option_map := [(s2l "size", [s2l "200"])] }

/-- Claim C7: unsigned retrieval of the value `"200"` fails with the
value-error classification under bounds `[0,99]` and succeeds returning
`200` under `[0,999]`; the inclusive bounds admit both endpoints
(`[200,200]` accepts `200`), and in general every value returned by a
successful retrieval lies within the inclusive caller-supplied bounds. -/
theorem c7_unsigned_bounds :
    c7Parser.GetOptionValueUnsigned (s2l "size") 0 99 =
      .error .OptionValueError ∧
    c7Parser.GetOptionValueUnsigned (s2l "size") 0 999 = .ok (some 200) ∧
    c7Parser.GetOptionValuesUnsigned (s2l "size") 200 200 = .ok [200] ∧
    ∀ (p : Parser) (name : Str) (mi ma : Nat) (vs : List Nat),
      p.GetOptionValuesUnsigned name mi ma = .ok vs →
      ∀ v ∈ vs, mi ≤ v ∧ v ≤ ma := by
  refine ⟨by decide, by decide, by decide, ?_⟩
  intro p name mi ma vs h v hv
  unfold Parser.GetOptionValuesUnsigned at h
  cases hf : p.FindOptionStrings name with
  | error e => rw [hf] at h; simp at h
  | ok strs =>
      rw [hf] at h
      dsimp only at h
      exact convertValues_bounds h v hv

/-- Witness for C7's universal part at the endpoint bounds `[200,200]`. -/
theorem c7_witness :
    c7Parser.GetOptionValuesUnsigned (s2l "size") 200 200 = .ok [200] ∧
    (200 ≤ 200 ∧ 200 ≤ 200) :=
  ⟨c7_unsigned_bounds.2.2.1,
   c7_unsigned_bounds.2.2.2 c7Parser (s2l "size") 200 200 [200]
     c7_unsigned_bounds.2.2.1 200 (by decide)⟩

/-! ### Claim C8 -/

/-- Case-insensitive parser over `all/a`. -/
def c8Parser : Parser :=
  mkParser [⟨s2l "all", s2l "a", s2l "all", false, false⟩]
    [s2l "-"] [s2l "--"] (s2l "=") true

/-- Case-insensitive parser whose flag strings are the letters `x`/`xx`. -/
def c8FlagParser : Parser :=
  mkParser [⟨s2l "foo", s2l "f", s2l "foo", false, false⟩]
    [s2l "x"] [s2l "xx"] (s2l "=") true

/-- Case-insensitive parser whose value separator is the letter `s`. -/
def c8SepParser : Parser :=
  mkParser [⟨s2l "foo", s2l "f", s2l "foo", false, true⟩]
    [s2l "-"] [s2l "--"] (s2l "s") true

/-- Two descriptors whose long forms differ only in letter case. -/
def c8CaseOptions : List Opt :=
  [⟨s2l "foo1", [], s2l "foo", false, false⟩,
   ⟨s2l "foo2", [], s2l "FOO", false, false⟩]

/-- Claim C8: with the case-insensitivity toggle set, `--ALL` matches
long form `all` and `-A` matches short form `a`; flag-prefix strings are
still compared byte-exactly (`Xf` does not match flag `x` and stays
positional) and so is the value separator (`--fooS5` does not split on
separator `s` and is an invalid long option); and the validator's
duplicate detection stays case-sensitive: long forms `foo` and `FOO`
install fine even with the toggle set. -/
theorem c8_case_insensitive_matching :
    c8Parser.ParseArguments [s2l "prog", s2l "--ALL"] =
      .ok { c8Parser with option_map := [(s2l "all", [[]])] } ∧
    c8Parser.ParseArguments [s2l "prog", s2l "-A"] =
      .ok { c8Parser with option_map := [(s2l "all", [[]])] } ∧
    c8FlagParser.ParseArguments [s2l "prog", s2l "Xf"] =
      .ok { c8FlagParser with option_map := [([], [s2l "Xf"])] } ∧
    c8SepParser.ParseArguments [s2l "prog", s2l "--fooS5"] =
      .error .InvalidLongOption ∧
    CheckOptions c8CaseOptions = .ok () ∧
    (mkParser [] [] [] [] false).SetOptions c8CaseOptions [s2l "-"]
        [s2l "--"] (s2l "=") true =
      .ok (mkParser c8CaseOptions [s2l "-"] [s2l "--"] (s2l "=") true) := by
  decide

/-! ### Claim C9 -/

/-- Claim C9: after any successful parse from a well-formed store, every
value list in the result map is non-empty; hence for every present name
the count is at least 1, `FindOptionStrings` returns a non-empty list and
`GetOptionString` is well-defined, returning the first recorded value. -/
theorem c9_nonempty_values_invariant (p p' : Parser) (args : List Str)
    (hwf : MapWF p.option_map) (h : p.ParseArguments args = .ok p') :
    MapWF p'.option_map ∧
    ∀ name, p'.OptionGiven name = true →
      1 ≤ p'.GetOptionCount name ∧
      ∃ v vs, p'.FindOptionStrings name = .ok (v :: vs) ∧
        p'.GetOptionString name = .ok (some v) := by
  have hwf' : MapWF p'.option_map := (ParseArguments_builds h).wf hwf
  refine ⟨hwf', ?_⟩
  intro name hgiven
  unfold Parser.OptionGiven containsKey at hgiven
  cases hl : lookupMap p'.option_map name with
  | none => rw [hl] at hgiven; simp at hgiven
  | some l =>
      have hne : l ≠ [] := hwf' (name, l) (lookupMap_mem hl)
      cases l with
      | nil => exact absurd rfl hne
      | cons v vs =>
          refine ⟨?_, v, vs, ?_, ?_⟩
          · unfold Parser.GetOptionCount countOf
            rw [hl]
            simp
          · unfold Parser.FindOptionStrings
            rw [hl]
          · unfold Parser.GetOptionString Parser.FindOptionStrings
            rw [hl]
            rfl

/-- The parser state after parsing `["prog","-a"]`. -/
def c9Parsed : Parser :=
  { parserExample with option_map := [(s2l "all", [[]])] }

/-- Witness for C9 at a concrete parse. -/
theorem c9_witness :
    1 ≤ c9Parsed.GetOptionCount (s2l "all") ∧ MapWF c9Parsed.option_map := by
  have h := c9_nonempty_values_invariant parserExample c9Parsed
    [s2l "prog", s2l "-a"]
    (by intro e he; simp [parserExample, mkParser] at he) (by decide)
  exact ⟨(h.2 (s2l "all") (by decide)).1, h.1⟩

/-! ### Claim C10 -/

/-- A recorded value list whose later entry is not numeric. -/
def c10aParser : Parser :=
  { parserExample with option_map := [(s2l "p", [s2l "5", s2l "bad"])] }

/-- A recorded value list whose later entry is out of bounds for
`[0,10]`. -/
def c10bParser : Parser :=
  { parserExample with option_map := [(s2l "p", [s2l "5", s2l "20"])] }

/-- Claim C10: singular retrieval converts and bound-checks every
recorded value — it fails with the value-error classification when a
later value does not convert (`["5","bad"]`) or is out of bounds
(`["5","20"]` under `[0,10]`), even though the first value alone is fine
— and on success it returns exactly the first converted value. -/
theorem c10_singular_checks_all :
    c10aParser.GetOptionValueUnsigned (s2l "p") 0 10 =
      .error .OptionValueError ∧
    c10bParser.GetOptionValueUnsigned (s2l "p") 0 10 =
      .error .OptionValueError ∧
    convertValues 0 10 [s2l "5"] = .ok [5] ∧
    ∀ (p : Parser) (name : Str) (mi ma : Nat) (v : Nat) (vs : List Nat),
      p.GetOptionValuesUnsigned name mi ma = .ok (v :: vs) →
      p.GetOptionValueUnsigned name mi ma = .ok (some v) := by
  refine ⟨by decide, by decide, by decide, ?_⟩
  intro p name mi ma v vs h
  unfold Parser.GetOptionValueUnsigned
  rw [h]
  rfl

/-- Witness for C10's universal part at a concrete retrieval. -/
theorem c10_witness :
    c7Parser.GetOptionValueUnsigned (s2l "size") 0 999 = .ok (some 200) :=
  c10_singular_checks_all.2.2.2 c7Parser (s2l "size") 0 999 200 []
    (by decide)

end ProgramOptions
